import Mathlib

/-
Verification of the workspace-manager orchestration engine of
go-go-golems/corporate-headquarters.

The repository ships the CLI entry point (cmd/wsm/main.go), the cobra
command wrappers (cmd/cmds/cmd_add.go, cmd_remove.go) and the wsm helper
GetStatusSymbol; the orchestration core (registry store, worktree binder,
multi-repo operation coordinator, discovery scanner, go.work generator)
is referenced from those files but its source is not part of this tree.
Definitions for the missing core are modelled from the specification and
are marked as such in their doc comments; definitions for the code that
is present are translated directly from the Go source.
-/

namespace Wsm

/-- Modelled from the spec: RepositoryRecord, the identity of a known
repository in the registry (name, canonical path, optional remote URL,
detected default branch, ecosystem hint). -/
structure RepositoryRecord where
  name : String
  path : String
  remoteURL : Option String
  defaultBranch : String
  ecosystemHint : String
  deriving Repr, DecidableEq

/-- Modelled from the spec: Binding, the association between a
WorkspaceDescriptor and a RepositoryRecord (repository name, branch
actually checked out, working-tree path under the workspace root). -/
structure Binding where
  repoName : String
  branch : String
  worktreePath : String
  deriving Repr, DecidableEq

/-- Modelled from the spec: WorkspaceDescriptor, the unit of
orchestration (unique name, target branch, root path, bindings). -/
structure WorkspaceDescriptor where
  name : String
  branch : String
  rootPath : String
  bindings : List Binding
  deriving Repr, DecidableEq

/-- Modelled from the spec: the error taxonomy of §7. -/
inductive WsmError where
  | notFoundError
  | referencedError
  | branchInUseError
  | dirtyWorktreeError
  | externalToolError (message : String)
  | persistenceError
  deriving Repr, DecidableEq

/-- Modelled from the spec: OperationOutcome, one per repository per
invoked multi-repo operation (repository name, success flag, message). -/
structure OperationOutcome where
  repoName : String
  success : Bool
  message : String
  deriving Repr, DecidableEq

/-- Modelled from the spec: Registry Store `Upsert(record)` inserts or
replaces by name. -/
def upsertRecord (reg : List RepositoryRecord) (rec : RepositoryRecord) :
    List RepositoryRecord :=
  if reg.any (fun r => r.name == rec.name) then
    reg.map (fun r => if r.name == rec.name then rec else r)
  else
    reg ++ [rec]

/-- Modelled from the spec: Registry Store `Get(name)`. -/
def getRecord (reg : List RepositoryRecord) (nm : String) :
    Option RepositoryRecord :=
  reg.find? (fun r => r.name == nm)

/-- Modelled from the spec: whether some live Binding of some workspace
references the registry record named `nm`. -/
def referencedBy (workspaces : List WorkspaceDescriptor) (nm : String) : Bool :=
  workspaces.any (fun w => w.bindings.any (fun b => b.repoName == nm))

/-- Modelled from the spec: Registry Store `Remove(name)` deletes only if
not referenced by any live Binding, else fails with `ReferencedError`. -/
def removeRecord (reg : List RepositoryRecord)
    (workspaces : List WorkspaceDescriptor) (nm : String) :
    Except WsmError (List RepositoryRecord) :=
  if referencedBy workspaces nm then .error .referencedError
  else .ok (reg.filter (fun r => !(r.name == nm)))

/-- Modelled from the spec: Worktree Binder `Bind` (§4.3). Resolves the
RepositoryRecord (NotFoundError if absent), determines the target branch
(explicit argument or the workspace default), treats re-binding an
already-bound repository to the same branch as a no-op success, rebinds
(releasing the existing working tree) when the rebind flag is given, and
otherwise appends a fresh Binding whose working-tree path is
`<workspace-root>/<repoName>`. Branch creation in the source repository
has no observable effect on the descriptor and is not modelled. -/
def bind (reg : List RepositoryRecord) (w : WorkspaceDescriptor)
    (repoName : String) (branchArg : Option String) (rebind : Bool) :
    Except WsmError WorkspaceDescriptor :=
  match getRecord reg repoName with
  | none => .error .notFoundError
  | some _ =>
    let branch := branchArg.getD w.branch
    match w.bindings.find? (fun b => b.repoName == repoName) with
    | some b =>
      if b.branch == branch then .ok w
      else if rebind then
        .ok { w with bindings :=
          (w.bindings.filter (fun bd => !(bd.repoName == repoName))) ++
          [{ repoName := repoName, branch := branch,
             worktreePath := w.rootPath ++ "/" ++ repoName }] }
      else .error .branchInUseError
    | none =>
      .ok { w with bindings := w.bindings ++
        [{ repoName := repoName, branch := branch,
           worktreePath := w.rootPath ++ "/" ++ repoName }] }

/-- Modelled from the spec: Worktree Binder `Unbind` (§4.3, steps 1-4).
Locates the Binding (NotFoundError if absent); if the working tree has
uncommitted changes (its path is in `dirtyPaths`) and `force` is false,
fails with DirtyWorktreeError taking no destructive action; otherwise
releases the working tree and removes the Binding from the descriptor.
The optional deletion of residual files (step 5) is outside the
descriptor-level model. -/
def unbind (w : WorkspaceDescriptor) (dirtyPaths : List String)
    (repoName : String) (force : Bool) :
    Except WsmError WorkspaceDescriptor :=
  match w.bindings.find? (fun b => b.repoName == repoName) with
  | none => .error .notFoundError
  | some b =>
    if dirtyPaths.contains b.worktreePath && !force then
      .error .dirtyWorktreeError
    else
      .ok { w with bindings :=
        w.bindings.filter (fun bd => !(bd.repoName == repoName)) }

/-- Result of one per-repository external git invocation: ok with a
message, or an error with a diagnostic. -/
def isFailure (r : Except String String) : Bool :=
  match r with
  | .error _ => true
  | .ok _ => false

/-- Modelled from the spec: the per-Binding outcome an operation records
for one repository. -/
def outcomeOf (exec : Binding → Except String String) (b : Binding) :
    OperationOutcome :=
  match exec b with
  | .ok msg => { repoName := b.repoName, success := true, message := msg }
  | .error msg => { repoName := b.repoName, success := false, message := msg }

/-- Modelled from the spec: Multi-Repo Operation Coordinator fan-out.
The operation is applied independently per Binding and one
OperationOutcome is collected per repository regardless of individual
failures (never aborting early). -/
def applyOperation (exec : Binding → Except String String)
    (w : WorkspaceDescriptor) : List OperationOutcome :=
  w.bindings.map (outcomeOf exec)

/-- Modelled from the spec: `Commit(workspace, message)` fan-out, with
the per-repository commit invocation abstracted as `commitRepo`. -/
def commitOp (commitRepo : Binding → Except String String)
    (w : WorkspaceDescriptor) : List OperationOutcome :=
  applyOperation commitRepo w

/-- Modelled from the spec: `Push(workspace, remote)` fan-out, with the
per-repository push invocation abstracted as `pushRepo`. -/
def pushOp (pushRepo : Binding → Except String String)
    (w : WorkspaceDescriptor) : List OperationOutcome :=
  applyOperation pushRepo w

/-- Modelled from the spec: `Sync(workspace)` fan-out, with the
per-repository fetch/fast-forward invocation abstracted as `syncRepo`. -/
def syncOp (syncRepo : Binding → Except String String)
    (w : WorkspaceDescriptor) : List OperationOutcome :=
  applyOperation syncRepo w

/-- Modelled from the spec: the overall call reports success only if
every outcome succeeded. -/
def overallSuccess (outs : List OperationOutcome) : Bool :=
  outs.all (fun o => o.success)

/-- Modelled from the spec: the sorted list of module paths the Module
Workspace File Generator writes, alphabetical by relative path (the
relative path of a bound repository under the workspace root is its
repository name). `hasGoMod b` says whether the working tree of binding
`b` carries the ecosystem's module marker file. -/
def modulePaths (w : WorkspaceDescriptor) (hasGoMod : Binding → Bool) :
    List String :=
  List.insertionSort (fun a b => a ≤ b)
    ((w.bindings.filter hasGoMod).map (fun b => b.repoName))

/-- Modelled from the spec: the byte content of the generated module
workspace descriptor file (`go.work`), or `none` when no member carries
a module marker (in which case no file is written and a pre-existing one
is removed). -/
def goWorkContent (w : WorkspaceDescriptor) (hasGoMod : Binding → Bool) :
    Option String :=
  let ms := modulePaths w hasGoMod
  if ms.isEmpty then none
  else some ("go 1.21\n" ++ String.join (ms.map (fun m => "use ./" ++ m ++ "\n")))

/-- Modelled from the spec: `Regenerate(workspace)` as a transformer of
the on-disk module workspace file (the previous file content is the last
argument; the result is the new file content, `none` meaning the file is
absent/removed). -/
def regenerate (w : WorkspaceDescriptor) (hasGoMod : Binding → Bool)
    (_oldFile : Option String) : Option String :=
  goWorkContent w hasGoMod

/-- Decimal digit to character, used for the numeric suffix appended to
colliding registry names. -/
def digitChar : Nat → Char
  | 0 => '0'
  | 1 => '1'
  | 2 => '2'
  | 3 => '3'
  | 4 => '4'
  | 5 => '5'
  | 6 => '6'
  | 7 => '7'
  | 8 => '8'
  | 9 => '9'
  | _ => '*'

/-- Big-endian decimal digits, with explicit fuel (any fuel at least the
number itself is enough, since dividing by ten strictly shrinks). -/
def natDigitsAux : Nat → Nat → List Nat
  | 0, n => [n]
  | fuel + 1, n => if n < 10 then [n] else natDigitsAux fuel (n / 10) ++ [n % 10]

/-- Big-endian decimal digits of a natural number. -/
def natDigits (n : Nat) : List Nat :=
  natDigitsAux n n

/-- Decimal rendering of a natural number. -/
def natToStr (n : Nat) : String :=
  String.mk ((natDigits n).map digitChar)

/-- Modelled from the spec: the candidate registry names tried for a
repository directory with base name `base` — the base name itself, then
the base name with the numeric suffixes 2, 3, … appended, enough
candidates that one is always free of collision with `taken`. -/
def nameCandidates (taken : List String) (base : String) : List String :=
  base :: (List.range (taken.length + 1)).map (fun i => base ++ natToStr (i + 2))

/-- Modelled from the spec: the Discovery Scanner computes a unique
registry name by taking the directory's base name and appending a
numeric suffix on collision. -/
def uniqueRegName (taken : List String) (base : String) : String :=
  ((nameCandidates taken base).find? (fun c => !(taken.contains c))).getD base

/-- Modelled from the spec: sequential registration of the found
repositories' base names, each upserted under a collision-free registry
name; returns the list of registry names assigned. -/
def registerNames : List String → List String → List String
  | [], _ => []
  | b :: rest, taken =>
    let nm := uniqueRegName taken b
    nm :: registerNames rest (taken ++ [nm])

/-- A directory tree as the Discovery Scanner sees it: directory base
name, whether the directory contains the version-control metadata marker
(a `.git` entry), and the non-metadata subdirectories. -/
inductive DirTree where
  | node (name : String) (hasGitMarker : Bool) (children : List DirTree)

/-- Directory base name of the root of a tree. -/
def DirTree.name : DirTree → String
  | .node nm _ _ => nm

/-- Whether the root directory of a tree contains the marker. -/
def DirTree.hasGitMarker : DirTree → Bool
  | .node _ m _ => m

/-- Subdirectories of the root of a tree. -/
def DirTree.children : DirTree → List DirTree
  | .node _ _ cs => cs

/-- Modelled from the spec: the walk of the Discovery Scanner over a
list of sibling directories. Each directory is classified as a
repository root if it contains the metadata marker; subdirectories are
visited only while the remaining depth budget is positive. Returns the
base names of the repository roots found, in visit order. -/
def findReposList : Nat → List DirTree → List String
  | 0, ts =>
    ts.foldr (fun t acc => (if t.hasGitMarker then [t.name] else []) ++ acc) []
  | b + 1, ts =>
    ts.foldr (fun t acc =>
      (if t.hasGitMarker then [t.name] else []) ++
      findReposList b t.children ++ acc) []

/-- Modelled from the spec: `Scan(roots, maxDepth)` — walk each root up
to `maxDepth` levels below it and register every repository found under
a unique registry name; returns the registry names assigned. -/
def scanRegister (roots : List DirTree) (maxDepth : Nat) : List String :=
  registerNames (findReposList maxDepth roots) []

/-- Translated from cmd/wsm/main.go: `main` calls `cmd.Execute()`; on a
non-nil error it prints `Error: <err>` to stderr and exits with code 1,
otherwise the process ends with exit code 0. The first component is the
exit code, the second the lines printed to stderr. -/
def mainRun (executeResult : Option String) : Nat × List String :=
  match executeResult with
  | some e => (1, ["Error: " ++ e])
  | none => (0, [])

/-- Translated from pkg/wsm (embedded in the README source listing):
GetStatusSymbol returns a symbol for the git status. -/
def GetStatusSymbol (status : String) : String :=
  if status == "A" then "+"
  else if status == "M" then "~"
  else if status == "D" then "-"
  else if status == "R" then "→"
  else if status == "C" then "©"
  else if status == "?" then "?"
  else status

/-- Modelled from cobra's documented contract for `Args` validators: a
command carries a positional-argument validator (`cobra.ExactArgs n`
accepts exactly `n` arguments) and a `RunE` body; `Execute` runs the
validator first and only calls `RunE` when it accepts. -/
structure CobraCommand (α : Type) where
  exactArgCount : Nat
  runE : List String → α

/-- Result of executing a cobra command: the argument-count validator
rejected the invocation, or `RunE` ran and produced `a`. -/
inductive CommandResult (α : Type) where
  | argumentCountError
  | invoked (a : α)
  deriving Repr, DecidableEq

/-- Modelled from cobra's documented contract: `ExactArgs(n)` is checked
before `RunE` is called. -/
def executeCobra {α : Type} (c : CobraCommand α) (args : List String) :
    CommandResult α :=
  if args.length = c.exactArgCount then .invoked (c.runE args) else
  .argumentCountError

/-- The call to `wm.AddRepositoryToWorkspace` an `add` invocation would
make (workspace name, repository name, branch flag, force flag). -/
structure AddInvocation where
  workspaceName : String
  repoName : String
  branch : String
  force : Bool
  deriving Repr, DecidableEq

/-- Translated from cmd/cmds/cmd_add.go: `NewAddCommand` uses
`cobra.ExactArgs(2)` and its RunE forwards `args[0]`/`args[1]` with the
branch and force flags to `AddRepositoryToWorkspace`. -/
def addCommand (branchFlag : String) (forceFlag : Bool) :
    CobraCommand AddInvocation :=
  { exactArgCount := 2,
    runE := fun args =>
      { workspaceName := args.getD 0 "", repoName := args.getD 1 "",
        branch := branchFlag, force := forceFlag } }

/-- The call to `wm.RemoveRepositoryFromWorkspace` a `remove` invocation
would make. -/
structure RemoveInvocation where
  workspaceName : String
  repoName : String
  force : Bool
  removeFiles : Bool
  deriving Repr, DecidableEq

/-- Translated from cmd/cmds/cmd_remove.go (embedded in the README
source listing): `NewRemoveCommand` uses `cobra.ExactArgs(2)` and its
RunE forwards `args[0]`/`args[1]` with the force and remove-files flags
to `RemoveRepositoryFromWorkspace`. -/
def removeCommand (forceFlag removeFilesFlag : Bool) :
    CobraCommand RemoveInvocation :=
  { exactArgCount := 2,
    runE := fun args =>
      { workspaceName := args.getD 0 "", repoName := args.getD 1 "",
        force := forceFlag, removeFiles := removeFilesFlag } }

/-- Value of a big-endian decimal digit list, used to show the decimal
rendering of suffixes is injective. -/
def ofDigits (ds : List Nat) : Nat :=
  ds.foldl (fun a d => a * 10 + d) 0

/-- Number of repositories exactly two directory levels below the root
of a tree. -/
def reposTwoDeep (t : DirTree) : Nat :=
  (t.children.map
    (fun c => (c.children.filter DirTree.hasGitMarker).length)).sum

/-! Helper lemmas about the registry. -/

/-- After replacing the matching record, the first match of a search by
name is the new record, provided some record matched. -/
theorem find?_map_replace (l : List RepositoryRecord) (rec : RepositoryRecord)
    (hany : l.any (fun r => r.name == rec.name) = true) :
    (l.map (fun r => if r.name == rec.name then rec else r)).find?
      (fun r => r.name == rec.name) = some rec := by
  induction l with
  | nil => simp at hany
  | cons r rs ih =>
    rw [List.map_cons]
    by_cases hr : (r.name == rec.name) = true
    · rw [if_pos hr, List.find?_cons_of_pos _ (by simp)]
    · have hr' : (r.name == rec.name) = false := by
        simpa using hr
      have hany' : rs.any (fun x => x.name == rec.name) = true := by
        simp only [List.any_cons, hr', Bool.false_or] at hany
        exact hany
      rw [if_neg hr, List.find?_cons_of_neg _ (by simp [hr'])]
      exact ih hany'

/-- Appending a fresh record to a registry with no matching name makes
it the first match of a search by name. -/
theorem find?_append_fresh (l : List RepositoryRecord) (rec : RepositoryRecord)
    (hnone : l.any (fun r => r.name == rec.name) = false) :
    (l ++ [rec]).find? (fun r => r.name == rec.name) = some rec := by
  induction l with
  | nil => rw [List.nil_append, List.find?_cons_of_pos _ (by simp)]
  | cons r rs ih =>
    simp only [List.any_cons, Bool.or_eq_false_iff] at hnone
    rw [List.cons_append, List.find?_cons_of_neg _ (by simp [hnone.1])]
    exact ih hnone.2

/-- C4: for every registry state and every RepositoryRecord,
`Upsert(record)` followed by `Get` with the same name returns the record
just upserted, whether the name was previously absent (insert) or
present (replace). -/
theorem registry_upsert_get_roundtrip (reg : List RepositoryRecord)
    (rec : RepositoryRecord) :
    getRecord (upsertRecord reg rec) rec.name = some rec := by
  unfold upsertRecord getRecord
  by_cases hany : reg.any (fun r => r.name == rec.name) = true
  · rw [if_pos hany]
    exact find?_map_replace reg rec hany
  · have hany' : reg.any (fun r => r.name == rec.name) = false := by
      simpa using hany
    rw [if_neg (by simp [hany'])]
    exact find?_append_fresh reg rec hany'

/-- C7: for every registry state, `Remove(name)` deletes the record if
and only if no live Binding in any workspace references it; if some live
Binding references the record, Remove fails with ReferencedError (and,
returning only the error, leaves the registry unchanged). -/
theorem registry_remove_referenced_guard (reg : List RepositoryRecord)
    (wss : List WorkspaceDescriptor) (nm : String) :
    (removeRecord reg wss nm = .error .referencedError ↔
      referencedBy wss nm = true) ∧
    (referencedBy wss nm = false →
      removeRecord reg wss nm = .ok (reg.filter (fun r => !(r.name == nm))) ∧
      getRecord (reg.filter (fun r => !(r.name == nm))) nm = none) := by
  constructor
  · unfold removeRecord
    by_cases h : referencedBy wss nm = true <;> simp [h]
  · intro h
    refine ⟨by simp [removeRecord, h], ?_⟩
    unfold getRecord
    rw [List.find?_eq_none]
    intro r hr
    have hp := (List.mem_filter.mp hr).2
    simp only [Bool.not_eq_eq_eq_not, Bool.not_true] at hp
    simp [hp]

/-- Witness for C7 at a concrete registry: removing a record that a live
binding references is refused, removing an unreferenced one succeeds. -/
theorem registry_remove_referenced_guard_witness :
    (removeRecord
      [{ name := "a", path := "/r/a", remoteURL := none,
         defaultBranch := "main", ecosystemHint := "go" }]
      [{ name := "ws", branch := "task/f", rootPath := "/w",
         bindings := [{ repoName := "a", branch := "task/f",
                        worktreePath := "/w/a" }] }] "a" =
      .error .referencedError) ∧
    (removeRecord
      [{ name := "a", path := "/r/a", remoteURL := none,
         defaultBranch := "main", ecosystemHint := "go" }]
      [] "a" = .ok []) := by
  constructor
  · exact (registry_remove_referenced_guard
      [{ name := "a", path := "/r/a", remoteURL := none,
         defaultBranch := "main", ecosystemHint := "go" }]
      [{ name := "ws", branch := "task/f", rootPath := "/w",
         bindings := [{ repoName := "a", branch := "task/f",
                        worktreePath := "/w/a" }] }] "a").1.mpr (by decide)
  · exact ((registry_remove_referenced_guard
      [{ name := "a", path := "/r/a", remoteURL := none,
         defaultBranch := "main", ecosystemHint := "go" }]
      [] "a").2 (by decide)).1

/-- C2: for every workspace and bound repository whose working tree has
uncommitted changes, Unbind with force=false fails with
DirtyWorktreeError and, producing only the error, takes no destructive
action; with force=true it succeeds and the Binding for that repository
is removed from the workspace descriptor. -/
theorem unbind_dirty_worktree_guard (w : WorkspaceDescriptor)
    (dirty : List String) (r : String) (b : Binding)
    (hfind : w.bindings.find? (fun bd => bd.repoName == r) = some b)
    (hdirty : dirty.contains b.worktreePath = true) :
    unbind w dirty r false = .error .dirtyWorktreeError ∧
    unbind w dirty r true =
      .ok { w with bindings :=
        w.bindings.filter (fun bd => !(bd.repoName == r)) } ∧
    (w.bindings.filter (fun bd => !(bd.repoName == r))).find?
      (fun bd => bd.repoName == r) = none := by
  have hmem : b.worktreePath ∈ dirty := by simpa using hdirty
  refine ⟨?_, ?_, ?_⟩
  · simp only [unbind, hfind]
    simp [hmem]
  · simp only [unbind, hfind]
    simp [hmem]
  · rw [List.find?_eq_none]
    intro bd hmem
    have hp := (List.mem_filter.mp hmem).2
    simp only [Bool.not_eq_eq_eq_not, Bool.not_true] at hp
    simp [hp]

/-- Witness for C2: a one-repository workspace whose working tree is
dirty; force=false is refused with DirtyWorktreeError, force=true
removes the binding. -/
theorem unbind_dirty_worktree_guard_witness :
    unbind
      { name := "feat-x", branch := "task/feat-x", rootPath := "/w",
        bindings := [{ repoName := "a", branch := "task/feat-x",
                       worktreePath := "/w/a" }] }
      ["/w/a"] "a" false = .error .dirtyWorktreeError ∧
    unbind
      { name := "feat-x", branch := "task/feat-x", rootPath := "/w",
        bindings := [{ repoName := "a", branch := "task/feat-x",
                       worktreePath := "/w/a" }] }
      ["/w/a"] "a" true =
      .ok { name := "feat-x", branch := "task/feat-x", rootPath := "/w",
            bindings := [] } := by
  have h := unbind_dirty_worktree_guard
    { name := "feat-x", branch := "task/feat-x", rootPath := "/w",
      bindings := [{ repoName := "a", branch := "task/feat-x",
                     worktreePath := "/w/a" }] }
    ["/w/a"] "a"
    { repoName := "a", branch := "task/feat-x", worktreePath := "/w/a" }
    (by decide) (by decide)
  exact ⟨h.1, h.2.1⟩

/-- Any successful `bind` leaves exactly one Binding for the requested
repository in the descriptor, provided the descriptor held at most one
before (the descriptor invariant). -/
theorem bind_ok_count_one (reg : List RepositoryRecord)
    (w : WorkspaceDescriptor) (r br : String) (rebind : Bool)
    (hone : w.bindings.countP (fun bd => bd.repoName == r) ≤ 1)
    (w2 : WorkspaceDescriptor)
    (hok : bind reg w r (some br) rebind = .ok w2) :
    w2.bindings.countP (fun bd => bd.repoName == r) = 1 := by
  unfold bind at hok
  simp only [Option.getD_some] at hok
  split at hok
  · exact (Except.noConfusion hok)
  · split at hok
    next b hf =>
      split at hok
      next hbr =>
        have hw : w = w2 := by
          injection hok with h
        subst hw
        have hmem := List.mem_of_find?_eq_some hf
        have hpred := List.find?_some hf
        have hpos : 0 < w.bindings.countP (fun bd => bd.repoName == r) :=
          List.countP_pos_iff.mpr ⟨b, hmem, hpred⟩
        omega
      next hbr =>
        split at hok
        next =>
          injection hok with h
          have hw : w2.bindings =
              (w.bindings.filter (fun bd => !(bd.repoName == r))) ++
              [{ repoName := r, branch := br,
                 worktreePath := w.rootPath ++ "/" ++ r }] := by
            rw [← h]
          rw [hw, List.countP_append]
          have hz : (w.bindings.filter
              (fun bd => !(bd.repoName == r))).countP
              (fun bd => bd.repoName == r) = 0 := by
            rw [List.countP_eq_zero]
            intro bd hmem
            have hp := (List.mem_filter.mp hmem).2
            simp only [Bool.not_eq_eq_eq_not, Bool.not_true] at hp
            simp [hp]
          rw [hz]
          simp [List.countP_cons]
        next =>
          exact (Except.noConfusion hok)
    next hf =>
      injection hok with h
      have hw : w2.bindings = w.bindings ++
          [{ repoName := r, branch := br,
             worktreePath := w.rootPath ++ "/" ++ r }] := by
        rw [← h]
      rw [hw, List.countP_append]
      have hz : w.bindings.countP (fun bd => bd.repoName == r) = 0 := by
        rw [List.countP_eq_zero]
        exact List.find?_eq_none.mp hf
      rw [hz]
      simp [List.countP_cons]

/-- C3: re-binding an already-bound repository to the same branch is a
no-op success, and after any successful Bind — including a Bind that
follows an Unbind of the same repository — the descriptor holds exactly
one Binding for that repository. -/
theorem bind_idempotent_unique_binding (reg : List RepositoryRecord)
    (w : WorkspaceDescriptor) (r br : String) (rebind : Bool)
    (hone : w.bindings.countP (fun bd => bd.repoName == r) ≤ 1) :
    (∀ b : Binding, getRecord reg r ≠ none →
      w.bindings.find? (fun bd => bd.repoName == r) = some b →
      b.branch = br →
      bind reg w r (some br) rebind = .ok w) ∧
    (∀ w2 : WorkspaceDescriptor,
      bind reg w r (some br) rebind = .ok w2 →
      w2.bindings.countP (fun bd => bd.repoName == r) = 1) ∧
    (∀ (dirty : List String) (frc : Bool) (w1 w2 : WorkspaceDescriptor),
      unbind w dirty r frc = .ok w1 →
      bind reg w1 r (some br) rebind = .ok w2 →
      w2.bindings.countP (fun bd => bd.repoName == r) = 1) := by
  refine ⟨?_, ?_, ?_⟩
  · intro b hreg hfind hbr
    cases hg : getRecord reg r with
    | none => exact absurd hg hreg
    | some rec =>
      simp only [bind, hg, Option.getD_some, hfind]
      rw [if_pos (by simp [hbr])]
  · intro w2 hok
    exact bind_ok_count_one reg w r br rebind hone w2 hok
  · intro dirty frc w1 w2 hunb hok
    have hw1 : w1.bindings =
        w.bindings.filter (fun bd => !(bd.repoName == r)) := by
      unfold unbind at hunb
      split at hunb
      · exact (Except.noConfusion hunb)
      · split at hunb
        · exact (Except.noConfusion hunb)
        · injection hunb with h
          rw [← h]
    have hz : w1.bindings.countP (fun bd => bd.repoName == r) ≤ 1 := by
      rw [hw1]
      have : (w.bindings.filter
          (fun bd => !(bd.repoName == r))).countP
          (fun bd => bd.repoName == r) = 0 := by
        rw [List.countP_eq_zero]
        intro bd hmem
        have hp := (List.mem_filter.mp hmem).2
        simp only [Bool.not_eq_eq_eq_not, Bool.not_true] at hp
        simp [hp]
      omega
    exact bind_ok_count_one reg w1 r br rebind hz w2 hok

/-- Witness for C3: binding the already-bound repository `a` to the same
branch is a no-op success, and rebinding after an unbind leaves exactly
one Binding for `a`. -/
theorem bind_idempotent_unique_binding_witness :
    bind
      [{ name := "a", path := "/r/a", remoteURL := none,
         defaultBranch := "main", ecosystemHint := "go" }]
      { name := "feat-x", branch := "task/feat-x", rootPath := "/w",
        bindings := [{ repoName := "a", branch := "task/feat-x",
                       worktreePath := "/w/a" }] }
      "a" (some "task/feat-x") false =
    .ok { name := "feat-x", branch := "task/feat-x", rootPath := "/w",
          bindings := [{ repoName := "a", branch := "task/feat-x",
                         worktreePath := "/w/a" }] } :=
  (bind_idempotent_unique_binding
    [{ name := "a", path := "/r/a", remoteURL := none,
       defaultBranch := "main", ecosystemHint := "go" }]
    { name := "feat-x", branch := "task/feat-x", rootPath := "/w",
      bindings := [{ repoName := "a", branch := "task/feat-x",
                     worktreePath := "/w/a" }] }
    "a" "task/feat-x" false (by decide)).1
    { repoName := "a", branch := "task/feat-x", worktreePath := "/w/a" }
    (by decide) (by decide) (by decide)

/-- The success flag of a collected outcome is the negation of the
per-repository invocation's failure. -/
theorem outcomeOf_success (exec : Binding → Except String String)
    (b : Binding) :
    (outcomeOf exec b).success = !(isFailure (exec b)) := by
  unfold outcomeOf isFailure
  cases exec b <;> rfl

/-- A Bool predicate and its negation count every element exactly once. -/
theorem countP_bool_split {α : Type} (p : α → Bool) (l : List α) :
    l.countP p + l.countP (fun a => !p a) = l.length := by
  induction l with
  | nil => rfl
  | cons x xs ih =>
    rw [List.countP_cons, List.countP_cons, List.length_cons]
    cases hx : p x <;> simp [hx] <;> omega

/-- Fan-out over a workspace with exactly one broken repository: one
outcome per binding, exactly one failure, the rest successes, overall
failure. -/
theorem applyOperation_one_failure (exec : Binding → Except String String)
    (w : WorkspaceDescriptor) (b0 : Binding)
    (hcount : w.bindings.countP (fun b => decide (b = b0)) = 1)
    (hex : ∀ b ∈ w.bindings, isFailure (exec b) = decide (b = b0)) :
    (applyOperation exec w).length = w.bindings.length ∧
    (applyOperation exec w).countP (fun o => !o.success) = 1 ∧
    (applyOperation exec w).countP (fun o => o.success) =
      w.bindings.length - 1 ∧
    overallSuccess (applyOperation exec w) = false := by
  have hfail : (applyOperation exec w).countP (fun o => !o.success) = 1 := by
    unfold applyOperation
    rw [List.countP_map]
    rw [List.countP_congr (q := fun b => decide (b = b0)) ?_]
    · exact hcount
    · intro b hmem
      simp [Function.comp, outcomeOf_success, hex b hmem]
  have hlen : (applyOperation exec w).length = w.bindings.length := by
    unfold applyOperation
    exact List.length_map _ _
  have hsplit := countP_bool_split (fun o => o.success) (applyOperation exec w)
  refine ⟨hlen, hfail, by omega, ?_⟩
  have hone : 0 < w.bindings.countP (fun b => decide (b = b0)) := by omega
  obtain ⟨b, hmem, hpred⟩ := List.countP_pos_iff.mp hone
  have hsucc : (outcomeOf exec b).success = false := by
    rw [outcomeOf_success, hex b hmem]
    simp only [decide_eq_true_eq] at hpred
    simp [hpred]
  unfold overallSuccess applyOperation
  rw [List.all_eq_false]
  exact ⟨outcomeOf exec b, List.mem_map_of_mem _ hmem, by simp [hsucc]⟩

/-- C1: each of Commit, Push and Sync returns exactly one
OperationOutcome per bound repository and never aborts early; with
exactly one broken repository the call returns N outcomes, exactly one
failure and N-1 successes; and the overall call reports success exactly
when every outcome succeeded. -/
theorem coordinator_per_repo_outcomes (w : WorkspaceDescriptor)
    (commitRepo pushRepo syncRepo : Binding → Except String String)
    (b0 : Binding)
    (hcount : w.bindings.countP (fun b => decide (b = b0)) = 1)
    (hc : ∀ b ∈ w.bindings, isFailure (commitRepo b) = decide (b = b0))
    (hp : ∀ b ∈ w.bindings, isFailure (pushRepo b) = decide (b = b0))
    (hs : ∀ b ∈ w.bindings, isFailure (syncRepo b) = decide (b = b0)) :
    ((commitOp commitRepo w).length = w.bindings.length ∧
      (commitOp commitRepo w).countP (fun o => !o.success) = 1 ∧
      (commitOp commitRepo w).countP (fun o => o.success) =
        w.bindings.length - 1 ∧
      overallSuccess (commitOp commitRepo w) = false) ∧
    ((pushOp pushRepo w).length = w.bindings.length ∧
      (pushOp pushRepo w).countP (fun o => !o.success) = 1 ∧
      (pushOp pushRepo w).countP (fun o => o.success) =
        w.bindings.length - 1 ∧
      overallSuccess (pushOp pushRepo w) = false) ∧
    ((syncOp syncRepo w).length = w.bindings.length ∧
      (syncOp syncRepo w).countP (fun o => !o.success) = 1 ∧
      (syncOp syncRepo w).countP (fun o => o.success) =
        w.bindings.length - 1 ∧
      overallSuccess (syncOp syncRepo w) = false) ∧
    (overallSuccess (commitOp commitRepo w) = true ↔
      ∀ o ∈ commitOp commitRepo w, o.success = true) ∧
    (overallSuccess (pushOp pushRepo w) = true ↔
      ∀ o ∈ pushOp pushRepo w, o.success = true) ∧
    (overallSuccess (syncOp syncRepo w) = true ↔
      ∀ o ∈ syncOp syncRepo w, o.success = true) := by
  simp only [commitOp, pushOp, syncOp]
  refine ⟨applyOperation_one_failure commitRepo w b0 hcount hc,
          applyOperation_one_failure pushRepo w b0 hcount hp,
          applyOperation_one_failure syncRepo w b0 hcount hs,
          ?_, ?_, ?_⟩ <;>
    · unfold overallSuccess
      exact List.all_eq_true

/-- Witness for C1: a three-repository workspace whose repository `b` is
broken; commit collects three outcomes with one failure and two
successes and the overall call fails. -/
theorem coordinator_per_repo_outcomes_witness :
    (commitOp
      (fun b => if b.repoName == "b" then .error "path removed"
                else .ok "committed")
      { name := "ws", branch := "t", rootPath := "/w",
        bindings := [{ repoName := "a", branch := "t", worktreePath := "/w/a" },
                     { repoName := "b", branch := "t", worktreePath := "/w/b" },
                     { repoName := "c", branch := "t", worktreePath := "/w/c" }] }).length = 3 ∧
    (commitOp
      (fun b => if b.repoName == "b" then .error "path removed"
                else .ok "committed")
      { name := "ws", branch := "t", rootPath := "/w",
        bindings := [{ repoName := "a", branch := "t", worktreePath := "/w/a" },
                     { repoName := "b", branch := "t", worktreePath := "/w/b" },
                     { repoName := "c", branch := "t", worktreePath := "/w/c" }] }).countP
      (fun o => !o.success) = 1 ∧
    (commitOp
      (fun b => if b.repoName == "b" then .error "path removed"
                else .ok "committed")
      { name := "ws", branch := "t", rootPath := "/w",
        bindings := [{ repoName := "a", branch := "t", worktreePath := "/w/a" },
                     { repoName := "b", branch := "t", worktreePath := "/w/b" },
                     { repoName := "c", branch := "t", worktreePath := "/w/c" }] }).countP
      (fun o => o.success) = 2 ∧
    overallSuccess
      (commitOp
        (fun b => if b.repoName == "b" then .error "path removed"
                  else .ok "committed")
        { name := "ws", branch := "t", rootPath := "/w",
          bindings := [{ repoName := "a", branch := "t", worktreePath := "/w/a" },
                       { repoName := "b", branch := "t", worktreePath := "/w/b" },
                       { repoName := "c", branch := "t", worktreePath := "/w/c" }] }) = false := by
  have h := coordinator_per_repo_outcomes
    { name := "ws", branch := "t", rootPath := "/w",
      bindings := [{ repoName := "a", branch := "t", worktreePath := "/w/a" },
                   { repoName := "b", branch := "t", worktreePath := "/w/b" },
                   { repoName := "c", branch := "t", worktreePath := "/w/c" }] }
    (fun b => if b.repoName == "b" then .error "path removed"
              else .ok "committed")
    (fun b => if b.repoName == "b" then .error "path removed"
              else .ok "committed")
    (fun b => if b.repoName == "b" then .error "path removed"
              else .ok "committed")
    { repoName := "b", branch := "t", worktreePath := "/w/b" }
    (by decide) (by decide) (by decide) (by decide)
  exact ⟨h.1.1, h.1.2.1, h.1.2.2.1, h.1.2.2.2⟩

/-- C6: module workspace file regeneration is deterministic and
idempotent — the module paths are written in sorted (alphabetical by
relative path) order, the output depends only on the set of member
modules (not on binding order), and regenerating twice with no
composition change produces byte-identical output. -/
theorem gowork_regeneration_deterministic (w1 w2 : WorkspaceDescriptor)
    (hasGoMod : Binding → Bool) (old1 : Option String)
    (hperm : ((w1.bindings.filter hasGoMod).map (fun b => b.repoName)).Perm
      ((w2.bindings.filter hasGoMod).map (fun b => b.repoName))) :
    (modulePaths w1 hasGoMod).Sorted (fun a b => a ≤ b) ∧
    regenerate w1 hasGoMod old1 = regenerate w2 hasGoMod old1 ∧
    regenerate w1 hasGoMod (regenerate w1 hasGoMod old1) =
      regenerate w1 hasGoMod old1 := by
  have hsorted : ∀ w : WorkspaceDescriptor,
      (modulePaths w hasGoMod).Sorted (fun a b => a ≤ b) := by
    intro w
    exact List.sorted_insertionSort _ _
  have heq : modulePaths w1 hasGoMod = modulePaths w2 hasGoMod := by
    apply List.eq_of_perm_of_sorted ?_ (hsorted w1) (hsorted w2)
    unfold modulePaths
    exact ((List.perm_insertionSort _ _).trans hperm).trans
      (List.perm_insertionSort _ _).symm
  refine ⟨hsorted w1, ?_, rfl⟩
  unfold regenerate goWorkContent
  rw [heq]

/-- Witness for C6: two workspaces whose Go members are the same two
repositories bound in opposite order produce byte-identical go.work
content, sorted alphabetically. -/
theorem gowork_regeneration_deterministic_witness :
    regenerate
      { name := "ws", branch := "t", rootPath := "/w",
        bindings := [{ repoName := "lib", branch := "t", worktreePath := "/w/lib" },
                     { repoName := "app", branch := "t", worktreePath := "/w/app" }] }
      (fun _ => true) none =
    regenerate
      { name := "ws", branch := "t", rootPath := "/w",
        bindings := [{ repoName := "app", branch := "t", worktreePath := "/w/app" },
                     { repoName := "lib", branch := "t", worktreePath := "/w/lib" }] }
      (fun _ => true) none :=
  (gowork_regeneration_deterministic
    { name := "ws", branch := "t", rootPath := "/w",
      bindings := [{ repoName := "lib", branch := "t", worktreePath := "/w/lib" },
                   { repoName := "app", branch := "t", worktreePath := "/w/app" }] }
    { name := "ws", branch := "t", rootPath := "/w",
      bindings := [{ repoName := "app", branch := "t", worktreePath := "/w/app" },
                   { repoName := "lib", branch := "t", worktreePath := "/w/lib" }] }
    (fun _ => true) none
    (List.Perm.swap "app" "lib" [])).2.1

/-- C8: the CLI process exits with a non-zero code exactly when the
top-level command execution returns an error, which is printed to
stderr; on success the exit code is zero and nothing is printed. -/
theorem cli_exit_code_mapping :
    (∀ r : Option String, (mainRun r).1 ≠ 0 ↔ r ≠ none) ∧
    mainRun none = (0, []) ∧
    (∀ e : String, mainRun (some e) = (1, ["Error: " ++ e])) := by
  refine ⟨?_, rfl, fun e => rfl⟩
  intro r
  cases r <;> simp [mainRun]

/-- Witness for C8: a failing execution exits non-zero with the error on
stderr, a successful one exits zero. -/
theorem cli_exit_code_mapping_witness :
    (mainRun (some "boom")).1 ≠ 0 ∧ mainRun none = (0, []) ∧
    mainRun (some "boom") = (1, ["Error: boom"]) :=
  ⟨(cli_exit_code_mapping.1 (some "boom")).mpr (by simp),
   cli_exit_code_mapping.2.1,
   cli_exit_code_mapping.2.2 "boom"⟩

/-- C9: GetStatusSymbol maps each known single-letter git status code to
its display symbol and returns every other input unchanged. -/
theorem get_status_symbol_total_mapping :
    GetStatusSymbol "A" = "+" ∧ GetStatusSymbol "M" = "~" ∧
    GetStatusSymbol "D" = "-" ∧ GetStatusSymbol "R" = "→" ∧
    GetStatusSymbol "C" = "©" ∧ GetStatusSymbol "?" = "?" ∧
    ∀ s : String, s ∉ (["A", "M", "D", "R", "C", "?"] : List String) →
      GetStatusSymbol s = s := by
  refine ⟨rfl, rfl, rfl, rfl, rfl, rfl, ?_⟩
  intro s hs
  simp only [List.mem_cons, List.not_mem_nil, or_false, not_or] at hs
  obtain ⟨h1, h2, h3, h4, h5, h6⟩ := hs
  simp [GetStatusSymbol, h1, h2, h3, h4, h5, h6]

/-- Witness for C9: the mapped code "A" and the unknown code "X". -/
theorem get_status_symbol_total_mapping_witness :
    GetStatusSymbol "A" = "+" ∧ GetStatusSymbol "X" = "X" :=
  ⟨get_status_symbol_total_mapping.1,
   get_status_symbol_total_mapping.2.2.2.2.2.2 "X" (by decide)⟩

/-- C10: the add and remove commands each require exactly two positional
arguments; any other argument count fails with an argument-count error
before the underlying workspace-manager operation is invoked. -/
theorem add_remove_exact_args (args : List String) (branchFlag : String)
    (forceFlag removeFilesFlag : Bool) (h : args.length ≠ 2) :
    executeCobra (addCommand branchFlag forceFlag) args =
      .argumentCountError ∧
    executeCobra (removeCommand forceFlag removeFilesFlag) args =
      .argumentCountError := by
  constructor <;>
    · simp only [executeCobra, addCommand, removeCommand]
      rw [if_neg h]

/-- Witness for C10: one positional argument is rejected by both
commands. -/
theorem add_remove_exact_args_witness :
    executeCobra (addCommand "" false) ["only-one"] =
      .argumentCountError ∧
    executeCobra (removeCommand false false) ["only-one"] =
      .argumentCountError :=
  add_remove_exact_args ["only-one"] "" false false (by decide)

/-! Helper lemmas for the Discovery Scanner's unique-name computation. -/

/-- Appending one digit multiplies the value by ten and adds the digit. -/
theorem ofDigits_append_digit (l : List Nat) (d : Nat) :
    ofDigits (l ++ [d]) = ofDigits l * 10 + d := by
  unfold ofDigits
  rw [List.foldl_append]
  rfl

/-- The decimal digits of a number evaluate back to the number. -/
theorem ofDigits_natDigitsAux : ∀ (fuel n : Nat),
    ofDigits (natDigitsAux fuel n) = n := by
  intro fuel
  induction fuel with
  | zero =>
    intro n
    simp [natDigitsAux, ofDigits]
  | succ f ih =>
    intro n
    by_cases h : n < 10
    · simp [natDigitsAux, h, ofDigits]
    · simp only [natDigitsAux, h, if_false]
      rw [ofDigits_append_digit, ih (n / 10)]
      omega

/-- Every digit the rendering produces is an actual decimal digit. -/
theorem natDigitsAux_lt_ten : ∀ (fuel n : Nat), n ≤ fuel →
    ∀ d ∈ natDigitsAux fuel n, d < 10 := by
  intro fuel
  induction fuel with
  | zero =>
    intro n hn d hd
    simp only [natDigitsAux, List.mem_singleton] at hd
    omega
  | succ f ih =>
    intro n hn
    by_cases h : n < 10
    · intro d hd
      simp only [natDigitsAux, h, if_true, List.mem_singleton] at hd
      omega
    · intro d hd
      simp only [natDigitsAux, h, if_false, List.mem_append,
        List.mem_singleton] at hd
      cases hd with
      | inl hmem => exact ih (n / 10) (by omega) d hmem
      | inr hmem => omega

/-- The digit list is never empty. -/
theorem natDigitsAux_ne_nil (fuel n : Nat) : natDigitsAux fuel n ≠ [] := by
  cases fuel with
  | zero => simp [natDigitsAux]
  | succ f =>
    by_cases h : n < 10
    · simp [natDigitsAux, h]
    · simp [natDigitsAux, h]

/-- Digit characters are distinct for distinct decimal digits. -/
theorem digitChar_inj : ∀ d1 < 10, ∀ d2 < 10,
    digitChar d1 = digitChar d2 → d1 = d2 := by decide

/-- Mapping to digit characters is injective on lists of digits. -/
theorem map_digitChar_inj : ∀ (l1 l2 : List Nat),
    (∀ d ∈ l1, d < 10) → (∀ d ∈ l2, d < 10) →
    l1.map digitChar = l2.map digitChar → l1 = l2 := by
  intro l1
  induction l1 with
  | nil =>
    intro l2 _ _ h
    cases l2 with
    | nil => rfl
    | cons e es => simp at h
  | cons d ds ih =>
    intro l2 h1 h2 h
    cases l2 with
    | nil => simp at h
    | cons e es =>
      simp only [List.map_cons, List.cons.injEq] at h
      have hd : d = e :=
        digitChar_inj d (h1 d (by simp)) e (h2 e (by simp)) h.1
      rw [hd, ih es (fun x hx => h1 x (by simp [hx]))
        (fun x hx => h2 x (by simp [hx])) h.2]

/-- The decimal rendering of naturals is injective. -/
theorem natToStr_inj (m n : Nat) (h : natToStr m = natToStr n) : m = n := by
  unfold natToStr natDigits at h
  have hdata : (natDigitsAux m m).map digitChar =
      (natDigitsAux n n).map digitChar := congrArg String.data h
  have hdig := map_digitChar_inj _ _
    (natDigitsAux_lt_ten m m (Nat.le_refl m))
    (natDigitsAux_lt_ten n n (Nat.le_refl n)) hdata
  have hm := ofDigits_natDigitsAux m m
  have hn := ofDigits_natDigitsAux n n
  rw [← hm, ← hn, hdig]

/-- The decimal rendering is never the empty string. -/
theorem natToStr_data_ne_nil (n : Nat) : (natToStr n).data ≠ [] := by
  unfold natToStr natDigits
  simp [natDigitsAux_ne_nil]

/-- String append is left-cancellative. -/
theorem string_append_cancel (base s t : String)
    (h : base ++ s = base ++ t) : s = t := by
  have hd := congrArg String.data h
  rw [String.data_append, String.data_append] at hd
  exact String.ext (List.append_cancel_left hd)

/-- A base name never equals itself with a numeric suffix appended. -/
theorem base_ne_append_suffix (base : String) (k : Nat) :
    base ≠ base ++ natToStr k := by
  intro h
  have hd := congrArg (fun s : String => s.data.length) h
  simp only [String.data_append, List.length_append] at hd
  have hk : (natToStr k).data.length = 0 := by omega
  exact natToStr_data_ne_nil k (List.length_eq_zero.mp hk)

/-- The candidate names tried for one base name are pairwise distinct. -/
theorem nameCandidates_nodup (taken : List String) (base : String) :
    (nameCandidates taken base).Nodup := by
  unfold nameCandidates
  rw [List.nodup_cons]
  constructor
  · intro hmem
    rw [List.mem_map] at hmem
    obtain ⟨i, _, hi⟩ := hmem
    exact base_ne_append_suffix base (i + 2) hi.symm
  · refine List.Nodup.map ?_ (List.nodup_range _)
    intro i j hij
    have hs := string_append_cancel base _ _ hij
    have := natToStr_inj _ _ hs
    omega

/-- There is one more candidate than taken names. -/
theorem nameCandidates_length (taken : List String) (base : String) :
    (nameCandidates taken base).length = taken.length + 2 := by
  simp [nameCandidates]

/-- The name the scanner assigns never collides with a taken name. -/
theorem uniqueRegName_not_mem (taken : List String) (base : String) :
    uniqueRegName taken base ∉ taken := by
  unfold uniqueRegName
  cases hfind : (nameCandidates taken base).find?
      (fun c => !(taken.contains c)) with
  | some c =>
    have hp := List.find?_some hfind
    simp only [Bool.not_eq_eq_eq_not, Bool.not_true] at hp
    simp only [Option.getD_some]
    intro hmem
    have : taken.contains c = true := by
      simpa [List.elem_eq_mem] using hmem
    rw [this] at hp
    exact Bool.noConfusion hp
  | none =>
    exfalso
    have hall := List.find?_eq_none.mp hfind
    have hsub : nameCandidates taken base ⊆ taken := by
      intro c hc
      have hcc := hall c hc
      simp only [Bool.not_eq_eq_eq_not, Bool.not_true, Bool.not_eq_false] at hcc
      simpa [List.elem_eq_mem] using hcc
    have hle :=
      (List.subperm_of_subset (nameCandidates_nodup taken base) hsub).length_le
    rw [nameCandidates_length] at hle
    omega

/-- Registration assigns one name per found repository. -/
theorem registerNames_length : ∀ (bases taken : List String),
    (registerNames bases taken).length = bases.length := by
  intro bases
  induction bases with
  | nil => intro taken; rfl
  | cons b bs ih =>
    intro taken
    simp only [registerNames, List.length_cons]
    rw [ih]

/-- The names registration assigns are pairwise distinct and avoid every
name already taken. -/
theorem registerNames_nodup_fresh : ∀ (bases taken : List String),
    (registerNames bases taken).Nodup ∧
    ∀ nm ∈ registerNames bases taken, nm ∉ taken := by
  intro bases
  induction bases with
  | nil =>
    intro taken
    exact ⟨List.nodup_nil, by simp [registerNames]⟩
  | cons b bs ih =>
    intro taken
    obtain ⟨ihnodup, ihfresh⟩ := ih (taken ++ [uniqueRegName taken b])
    simp only [registerNames]
    constructor
    · rw [List.nodup_cons]
      refine ⟨?_, ihnodup⟩
      intro hmem
      exact ihfresh _ hmem (List.mem_append_right _ (by simp))
    · intro nm hmem
      rw [List.mem_cons] at hmem
      cases hmem with
      | inl h =>
        rw [h]
        exact uniqueRegName_not_mem taken b
      | inr h =>
        intro hmem2
        exact ihfresh nm h (List.mem_append_left _ hmem2)

/-! Helper lemmas about the scanner's walk. -/

/-- No directories, no repositories. -/
theorem findReposList_nil (budget : Nat) : findReposList budget [] = [] := by
  cases budget <;> rfl

/-- Walk of a sibling list with exhausted depth budget: classify the
head, do not descend. -/
theorem findReposList_zero_cons (t : DirTree) (ts : List DirTree) :
    findReposList 0 (t :: ts) =
      (if t.hasGitMarker then [t.name] else []) ++ findReposList 0 ts := rfl

/-- Walk of a sibling list with positive depth budget: classify the
head, descend into its children with one budget level less, then the
siblings. -/
theorem findReposList_succ_cons (b : Nat) (t : DirTree) (ts : List DirTree) :
    findReposList (b + 1) (t :: ts) =
      (if t.hasGitMarker then [t.name] else []) ++
      (findReposList b t.children ++ findReposList (b + 1) ts) := by
  simp only [findReposList, List.foldr_cons, List.append_assoc]

/-- With exhausted budget the walk returns the marked siblings. -/
theorem findReposList_zero (ts : List DirTree) :
    findReposList 0 ts = (ts.filter DirTree.hasGitMarker).map DirTree.name := by
  induction ts with
  | nil => rfl
  | cons t ts ih =>
    rw [findReposList_zero_cons]
    cases hm : t.hasGitMarker with
    | true =>
      rw [List.filter_cons_of_pos hm, List.map_cons, ih]
      rfl
    | false =>
      rw [List.filter_cons_of_neg (by simp [hm]), ih]
      simp

/-- A sibling list of unmarked directories yields nothing with
exhausted budget. -/
theorem findReposList_zero_unmarked (ts : List DirTree)
    (h : ∀ c ∈ ts, c.hasGitMarker = false) : findReposList 0 ts = [] := by
  rw [findReposList_zero]
  have hf : ts.filter DirTree.hasGitMarker = [] :=
    List.filter_eq_nil_iff.mpr (by intro c hc; simp [h c hc])
  rw [hf]
  rfl

/-- With budget one over unmarked siblings, the walk finds exactly the
marked children of each sibling. -/
theorem findReposList_one_length (ts : List DirTree)
    (hts : ∀ c ∈ ts, c.hasGitMarker = false) :
    (findReposList 1 ts).length =
      (ts.map (fun c => (c.children.filter DirTree.hasGitMarker).length)).sum := by
  induction ts with
  | nil => rfl
  | cons c cs ih =>
    rw [findReposList_succ_cons, hts c (by simp), findReposList_zero]
    simp only [Bool.false_eq_true, if_false, List.nil_append,
      List.length_append, List.length_map, List.map_cons, List.sum_cons]
    rw [ih (fun x hx => hts x (by simp [hx]))]

/-- C5: scanning a tree whose root and first-level directories are not
repositories but which holds 3 repositories two levels deep registers 0
repositories with maxDepth 1 and 3 with maxDepth 2, each under a unique
registry name (base name plus numeric suffix on collision). -/
theorem scanner_depth_bound_unique_names (t : DirTree)
    (hroot : t.hasGitMarker = false)
    (hchild : ∀ c ∈ t.children, c.hasGitMarker = false)
    (hcount : reposTwoDeep t = 3) :
    scanRegister [t] 1 = [] ∧
    (scanRegister [t] 2).length = 3 ∧
    (scanRegister [t] 2).Nodup := by
  have hone : findReposList 1 [t] = [] := by
    rw [show (1 : Nat) = 0 + 1 from rfl, findReposList_succ_cons, hroot]
    rw [findReposList_zero_unmarked t.children hchild, findReposList_nil]
    rfl
  have htwo : (findReposList 2 [t]).length = 3 := by
    rw [show (2 : Nat) = 1 + 1 from rfl, findReposList_succ_cons, hroot]
    rw [findReposList_nil]
    simp only [Bool.false_eq_true, if_false, List.nil_append, List.append_nil]
    rw [findReposList_one_length t.children hchild]
    exact hcount
  refine ⟨?_, ?_, ?_⟩
  · unfold scanRegister
    rw [hone]
    rfl
  · unfold scanRegister
    rw [registerNames_length, htwo]
  · unfold scanRegister
    exact (registerNames_nodup_fresh (findReposList 2 [t]) []).1

/-- Witness for C5: three repositories named `app` two levels deep; the
scan finds none at maxDepth 1 and registers `app`, `app2`, `app3` at
maxDepth 2. -/
theorem scanner_depth_bound_unique_names_witness :
    scanRegister
      [DirTree.node "root" false
        [DirTree.node "d1" false
          [DirTree.node "app" true [], DirTree.node "app" true []],
         DirTree.node "d2" false [DirTree.node "app" true []]]] 1 = [] ∧
    (scanRegister
      [DirTree.node "root" false
        [DirTree.node "d1" false
          [DirTree.node "app" true [], DirTree.node "app" true []],
         DirTree.node "d2" false [DirTree.node "app" true []]]] 2).length = 3 ∧
    (scanRegister
      [DirTree.node "root" false
        [DirTree.node "d1" false
          [DirTree.node "app" true [], DirTree.node "app" true []],
         DirTree.node "d2" false [DirTree.node "app" true []]]] 2).Nodup :=
  scanner_depth_bound_unique_names
    (DirTree.node "root" false
      [DirTree.node "d1" false
        [DirTree.node "app" true [], DirTree.node "app" true []],
       DirTree.node "d2" false [DirTree.node "app" true []]])
    (by decide) (by decide) (by decide)

end Wsm
